import Mathlib

/-!
Verification of `keras_htr/models/encoder_decoder.py`
(`ConvolutionalEncoderDecoderWithAttention` and its nested `InferenceModel`).

The greedy inference loop of `InferenceModel.predict_single_output` is embedded
as a function of the stream of argmax codes the decoder would produce: the
encoder, attention and step-decoder networks are opaque numeric functions, so
every claim about the loop's control flow is quantified over all possible code
streams.  A finite list `codes` is a prefix of that stream; the loop either
halts within the prefix (`some` final state) or is still running when the
prefix ends (`none`).
-/

namespace KerasHtr

/-- One-hot row vector of width `n` with the single 1 at index `k`:
`y_prev = np.zeros((1, n)); y_prev[0, k] = 1.0` in the source. -/
def oneHot (n k : Nat) : List Nat :=
  (List.range n).map (fun i => if i = k then 1 else 0)

/-- The mutable state of the while-loop in `predict_single_output`:
the accumulated `labels` list and the fed-back `y_prev` one-hot vector. -/
structure LoopState where
  labels : List Nat
  y_prev : List Nat
  deriving Repr, DecidableEq

/-- The `while True` loop of `InferenceModel.predict_single_output`, run on a
prefix `codes` of the stream of argmax codes.  Per iteration the source sets
`y_prev` to the one-hot of `code`, then tests `code == eos or len(labels) > 100`
(halt without appending), then `code == sos` (skip), else appends `code`. -/
def predictLoop (numOutputTokens sos eos : Nat) :
    List Nat → LoopState → Option LoopState
  | [], _ => none
  | code :: rest, st =>
    let y := oneHot numOutputTokens code
    if code = eos ∨ st.labels.length > 100 then
      some { labels := st.labels, y_prev := y }
    else if code = sos then
      predictLoop numOutputTokens sos eos rest { labels := st.labels, y_prev := y }
    else
      predictLoop numOutputTokens sos eos rest { labels := st.labels ++ [code], y_prev := y }

/-- The state just before the first iteration: `labels = []` and
`y_prev` the one-hot at `sos`. -/
def initState (numOutputTokens sos : Nat) : LoopState :=
  { labels := [], y_prev := oneHot numOutputTokens sos }

/-- `InferenceModel.predict_single_output`, as a function of the argmax code
stream prefix: `some labels` when the loop breaks within the prefix. -/
def predict_single_output (numOutputTokens sos eos : Nat) (codes : List Nat) :
    Option (List Nat) :=
  (predictLoop numOutputTokens sos eos codes (initState numOutputTokens sos)).map
    LoopState.labels

/-- The loop can only grow `labels` to length 101: an append happens only when
the entering length is at most 100. -/
theorem predictLoop_length_le (numOutputTokens sos eos : Nat) :
    ∀ (codes : List Nat) (st st' : LoopState),
      st.labels.length ≤ 101 →
      predictLoop numOutputTokens sos eos codes st = some st' →
      st'.labels.length ≤ 101 := by
  intro codes
  induction codes with
  | nil => intro st st' _ h; simp [predictLoop] at h
  | cons c rest ih =>
    intro st st' hlen h
    simp only [predictLoop] at h
    by_cases hhalt : c = eos ∨ st.labels.length > 100
    · rw [if_pos hhalt] at h
      cases h
      exact hlen
    · rw [if_neg hhalt] at h
      by_cases hsos : c = sos
      · rw [if_pos hsos] at h
        exact ih { labels := st.labels, y_prev := oneHot numOutputTokens c } st' hlen h
      · rw [if_neg hsos] at h
        refine ih _ _ ?_ h
        have hcap : ¬ st.labels.length > 100 := fun hc => hhalt (Or.inr hc)
        simp only [List.length_append, List.length_cons, List.length_nil]
        omega

/-- C1 (amended): every label sequence returned by
`InferenceModel.predict_single_output` has length at most 101 — the loop tests
`len(labels) > 100` before appending, so it can emit a 101st token. -/
theorem predict_single_output_length_le_101 (numOutputTokens sos eos : Nat)
    (codes : List Nat) (labels : List Nat)
    (h : predict_single_output numOutputTokens sos eos codes = some labels) :
    labels.length ≤ 101 := by
  simp only [predict_single_output, Option.map_eq_some'] at h
  obtain ⟨st', hrun, hlab⟩ := h
  have := predictLoop_length_le numOutputTokens sos eos codes
    (initState numOutputTokens sos) st' (by simp [initState]) hrun
  rw [← hlab]
  exact this

/-- C1 witness: the length bound applied to a concrete run. -/
theorem predict_single_output_length_le_101_witness :
    ([3, 4] : List Nat).length ≤ 101 :=
  predict_single_output_length_le_101 5 0 1 [3, 4, 1] [3, 4] (by decide)

/-- C1 counterexample: a stream of 102 ordinary codes makes the loop return
101 labels, refuting the claimed bound of 100. -/
theorem predict_single_output_reaches_101 :
    predict_single_output 3 0 1 (List.replicate 102 2) =
      some (List.replicate 101 2) ∧
    ¬ (List.replicate 101 2 : List Nat).length ≤ 100 := by
  constructor
  · decide
  · decide

/-- C2 (code behaviour at the failing input): when the argmax code equals `sos`
at every step (`sos = 0`, `eos = 1`), no prefix of the code stream makes the
loop break — `labels` stays empty, so `len(labels) > 100` never holds and
`code == eos` never holds, and the while-loop never terminates. -/
theorem predict_single_output_all_sos_never_halts (n : Nat) :
    predict_single_output 3 0 1 (List.replicate n 0) = none := by
  suffices h : predictLoop 3 0 1 (List.replicate n 0) (initState 3 0) = none by
    simp [predict_single_output, h]
  induction n with
  | zero => simp [predictLoop]
  | succ m ih =>
    rw [List.replicate_succ]
    simpa [predictLoop, initState] using ih

/-- Reaching the first `eos` with the cap untouched: starting from any state
whose labels leave room under the cap, the loop consumes the codes before
index `k`, appending exactly the non-`sos` ones, and halts at index `k`
without appending. -/
theorem predictLoop_first_eos (numOutputTokens sos eos : Nat) :
    ∀ (codes : List Nat) (k : Nat) (st : LoopState) (hk : k < codes.length),
      codes.get ⟨k, hk⟩ = eos →
      eos ∉ codes.take k →
      st.labels.length + ((codes.take k).filter (fun c => c ≠ sos)).length ≤ 100 →
      predictLoop numOutputTokens sos eos codes st =
        some { labels := st.labels ++ (codes.take k).filter (fun c => c ≠ sos),
               y_prev := oneHot numOutputTokens eos } := by
  intro codes
  induction codes with
  | nil =>
    intro k st hk
    exact absurd hk (by simp)
  | cons c rest ih =>
    intro k st hk hcode hfirst hcap
    cases k with
    | zero =>
      have hc : c = eos := hcode
      subst hc
      simp [predictLoop]
    | succ j =>
      have hj : j < rest.length := Nat.lt_of_succ_lt_succ hk
      have hcode' : rest.get ⟨j, hj⟩ = eos := hcode
      rw [List.take_succ_cons] at hfirst hcap ⊢
      have hne : c ≠ eos := fun hc => hfirst (hc ▸ List.mem_cons_self c _)
      have hfirst' : eos ∉ rest.take j := fun hm => hfirst (List.mem_cons_of_mem c hm)
      have hnocap : ¬ st.labels.length > 100 := by
        have := hcap
        omega
      simp only [predictLoop]
      rw [if_neg (by tauto)]
      by_cases hsos : c = sos
      · rw [if_pos hsos]
        have hfilter : (c :: rest.take j).filter (fun c => c ≠ sos) =
            (rest.take j).filter (fun c => c ≠ sos) := by
          simp [List.filter_cons, hsos]
        rw [hfilter] at hcap ⊢
        exact ih j { labels := st.labels, y_prev := oneHot numOutputTokens c }
          hj hcode' hfirst' hcap
      · rw [if_neg hsos]
        have hfilter : (c :: rest.take j).filter (fun c => c ≠ sos) =
            c :: (rest.take j).filter (fun c => c ≠ sos) := by
          simp [List.filter_cons, hsos]
        rw [hfilter] at hcap ⊢
        have hcap' : (st.labels ++ [c]).length +
            ((rest.take j).filter (fun c => c ≠ sos)).length ≤ 100 := by
          simp only [List.length_append, List.length_cons, List.length_nil]
          simp only [List.length_cons] at hcap
          omega
        have := ih j { labels := st.labels ++ [c], y_prev := oneHot numOutputTokens c }
          hj hcode' hfirst' hcap'
        rw [this]
        simp

/-- C3: the loop stops at the first step whose argmax code equals `eos`
(given that the length cap has not fired before that step), that code is not
appended, and the returned label sequence contains no occurrence of `eos`. -/
theorem predict_single_output_stops_at_first_eos (numOutputTokens sos eos : Nat)
    (codes : List Nat) (k : Nat) (hk : k < codes.length)
    (hcode : codes.get ⟨k, hk⟩ = eos)
    (hfirst : eos ∉ codes.take k)
    (hcap : ((codes.take k).filter (fun c => c ≠ sos)).length ≤ 100) :
    predict_single_output numOutputTokens sos eos codes =
      some ((codes.take k).filter (fun c => c ≠ sos)) ∧
    eos ∉ (codes.take k).filter (fun c => c ≠ sos) := by
  constructor
  · have h := predictLoop_first_eos numOutputTokens sos eos codes k
      (initState numOutputTokens sos) hk hcode hfirst (by simpa [initState] using hcap)
    unfold predict_single_output
    rw [h]
    simp [initState]
  · intro hmem
    exact hfirst (List.mem_of_mem_filter hmem)

/-- C3 witness: the first-`eos` stopping rule applied to the concrete run
`codes = [3, 4, 1]`, `sos = 0`, `eos = 1`, first `eos` at index 2. -/
theorem predict_single_output_stops_at_first_eos_witness :
    predict_single_output 5 0 1 [3, 4, 1] =
      some ((([3, 4, 1] : List Nat).take 2).filter (fun c => c ≠ 0)) ∧
    1 ∉ (([3, 4, 1] : List Nat).take 2).filter (fun c => c ≠ 0) :=
  predict_single_output_stops_at_first_eos 5 0 1 [3, 4, 1] 2
    (by decide) (by decide) (by decide) (by decide)

/-- The loop never appends `sos`: if `sos` is absent from the entering labels
it is absent from the final labels. -/
theorem predictLoop_sos_not_mem (numOutputTokens sos eos : Nat) :
    ∀ (codes : List Nat) (st st' : LoopState),
      sos ∉ st.labels →
      predictLoop numOutputTokens sos eos codes st = some st' →
      sos ∉ st'.labels := by
  intro codes
  induction codes with
  | nil => intro st st' _ h; simp [predictLoop] at h
  | cons c rest ih =>
    intro st st' hmem h
    simp only [predictLoop] at h
    by_cases hhalt : c = eos ∨ st.labels.length > 100
    · rw [if_pos hhalt] at h
      cases h
      exact hmem
    · rw [if_neg hhalt] at h
      by_cases hsos : c = sos
      · rw [if_pos hsos] at h
        exact ih { labels := st.labels, y_prev := oneHot numOutputTokens c } st' hmem h
      · rw [if_neg hsos] at h
        refine ih { labels := st.labels ++ [c], y_prev := oneHot numOutputTokens c } st' ?_ h
        intro hin
        rcases List.mem_append.mp hin with hin | hin
        · exact hmem hin
        · exact hsos (List.mem_singleton.mp hin).symm

/-- C4: at a step whose argmax code equals `sos` (with `sos ≠ eos` and the
cap not reached) the code is not appended and the loop continues with
`y_prev` set to the one-hot at `sos`; consequently the returned label
sequence never contains `sos`. -/
theorem predict_single_output_skips_sos (numOutputTokens sos eos : Nat) :
    (∀ (rest : List Nat) (st : LoopState), sos ≠ eos → st.labels.length ≤ 100 →
      predictLoop numOutputTokens sos eos (sos :: rest) st =
        predictLoop numOutputTokens sos eos rest
          { labels := st.labels, y_prev := oneHot numOutputTokens sos }) ∧
    (∀ (codes labels : List Nat),
      predict_single_output numOutputTokens sos eos codes = some labels →
      sos ∉ labels) := by
  constructor
  · intro rest st hne hlen
    simp only [predictLoop]
    rw [if_neg (by omega)]
    simp
  · intro codes labels h
    simp only [predict_single_output, Option.map_eq_some'] at h
    obtain ⟨st', hrun, hlab⟩ := h
    have := predictLoop_sos_not_mem numOutputTokens sos eos codes
      (initState numOutputTokens sos) st' (by simp [initState]) hrun
    rw [← hlab]
    exact this

/-- C4 witness: the skip rule applied at a concrete state, and `sos`-absence
applied to the concrete run `codes = [0, 3, 1]`. -/
theorem predict_single_output_skips_sos_witness :
    predictLoop 5 0 1 [0, 2] (initState 5 0) =
      predictLoop 5 0 1 [2] { labels := [], y_prev := oneHot 5 0 } ∧
    (0 : Nat) ∉ ([3] : List Nat) :=
  ⟨(predict_single_output_skips_sos 5 0 1).1 [2] (initState 5 0) (by decide) (by decide),
   (predict_single_output_skips_sos 5 0 1).2 [0, 3, 1] [3] (by decide)⟩

/-- C5: with `output_size = 5`, `sos = 0`, `eos = 1`, the argmax code stream
`[3, 4, 1]` yields labels `[3, 4]` (stops at `eos`, excludes it) and the
stream `[0, 3, 1]` yields `[3]` (mid-stream `sos` skipped). -/
theorem predict_single_output_scenarios :
    predict_single_output 5 0 1 [3, 4, 1] = some [3, 4] ∧
    predict_single_output 5 0 1 [0, 3, 1] = some [3] :=
  ⟨by decide, by decide⟩

/-! ### The training-time unrolling of `_create_training_model` -/

/-- The three sub-networks, as opaque functions over abstract tensor types:
`encoder` maps the image input to `(encoder_activations, state_h, state_c)`;
`attention` maps `[encoder_activations, state_h, state_c]` to a context
vector; `decoder` maps the concatenation `z = (context, y)` plus the
recurrent state to `(y_hat, state_h, state_c)`. -/
structure ConvEncoderDecoderNets (Img Act H C Ctx Y Yhat : Type) where
  encoder : Img → Act × H × C
  attention : Act → H → C → Ctx
  decoder : Ctx × Y → H → C → Yhat × H × C

/-- The `for t in range(self._max_text_length)` loop body of
`_create_training_model`: from step index `t` with recurrent state `(h, c)`,
run `count` further steps, at each step feeding the attention context and the
teacher-forcing slice `decoderInputs t`, and collect the emitted
distributions in order. -/
def trainingSteps {Img Act H C Ctx Y Yhat : Type}
    (nets : ConvEncoderDecoderNets Img Act H C Ctx Y Yhat)
    (encoderActivations : Act) (decoderInputs : Nat → Y) :
    Nat → H → C → Nat → List Yhat
  | _, _, _, 0 => []
  | t, h, c, count + 1 =>
    let context := nets.attention encoderActivations h c
    let y := decoderInputs t
    let z := (context, y)
    let r := nets.decoder z h c
    r.1 :: trainingSteps nets encoderActivations decoderInputs (t + 1) r.2.1 r.2.2 count

/-- `_create_training_model`: run the encoder once, then statically unroll
attention + step decoder for `maxTextLength` steps, collecting one output
distribution per step. -/
def create_training_model {Img Act H C Ctx Y Yhat : Type}
    (nets : ConvEncoderDecoderNets Img Act H C Ctx Y Yhat)
    (encoderInputs : Img) (decoderInputs : Nat → Y) (maxTextLength : Nat) :
    List Yhat :=
  let e := nets.encoder encoderInputs
  trainingSteps nets e.1 decoderInputs 0 e.2.1 e.2.2 maxTextLength

/-- The recurrent state `(h_t, c_t)` entering step `t` of the unrolled
training graph. -/
def trainState {Img Act H C Ctx Y Yhat : Type}
    (nets : ConvEncoderDecoderNets Img Act H C Ctx Y Yhat)
    (encoderInputs : Img) (decoderInputs : Nat → Y) : Nat → H × C
  | 0 => (nets.encoder encoderInputs).2
  | t + 1 =>
    let s := trainState nets encoderInputs decoderInputs t
    let acts := (nets.encoder encoderInputs).1
    let context := nets.attention acts s.1 s.2
    let r := nets.decoder (context, decoderInputs t) s.1 s.2
    (r.2.1, r.2.2)

/-- The distribution `y_hat_t` appended at step `t`: the step decoder applied
to the teacher-forcing slice at `t` and the attention context computed from
the state `(h_t, c_t)`. -/
def trainOutput {Img Act H C Ctx Y Yhat : Type}
    (nets : ConvEncoderDecoderNets Img Act H C Ctx Y Yhat)
    (encoderInputs : Img) (decoderInputs : Nat → Y) (t : Nat) : Yhat :=
  let s := trainState nets encoderInputs decoderInputs t
  let acts := (nets.encoder encoderInputs).1
  (nets.decoder (nets.attention acts s.1 s.2, decoderInputs t) s.1 s.2).1

/-- Unrolling from the state at step `t` yields the per-step outputs for the
index window `[t, t + count)`. -/
theorem trainingSteps_eq_map {Img Act H C Ctx Y Yhat : Type}
    (nets : ConvEncoderDecoderNets Img Act H C Ctx Y Yhat)
    (encoderInputs : Img) (decoderInputs : Nat → Y) :
    ∀ (count t : Nat),
      trainingSteps nets (nets.encoder encoderInputs).1 decoderInputs t
        (trainState nets encoderInputs decoderInputs t).1
        (trainState nets encoderInputs decoderInputs t).2 count =
      (List.range' t count).map (trainOutput nets encoderInputs decoderInputs) := by
  intro count
  induction count with
  | zero => intro t; simp [trainingSteps]
  | succ k ih =>
    intro t
    rw [List.range'_succ, List.map_cons]
    refine congrArg₂ List.cons rfl ?_
    exact ih (t + 1)

/-- C6: `_create_training_model` builds a graph whose output list contains
exactly `max_text_length` distributions, one appended per step
`t = 0 .. max_text_length - 1`, where the `t`-th output is the step decoder
fed the ground-truth teacher-forcing slice at position `t` together with the
attention context computed from the current `(h, c)` state. -/
theorem create_training_model_outputs {Img Act H C Ctx Y Yhat : Type}
    (nets : ConvEncoderDecoderNets Img Act H C Ctx Y Yhat)
    (encoderInputs : Img) (decoderInputs : Nat → Y) (maxTextLength : Nat) :
    (create_training_model nets encoderInputs decoderInputs maxTextLength).length =
      maxTextLength ∧
    ∀ t, t < maxTextLength →
      (create_training_model nets encoderInputs decoderInputs maxTextLength)[t]? =
        some (trainOutput nets encoderInputs decoderInputs t) := by
  have key : create_training_model nets encoderInputs decoderInputs maxTextLength =
      (List.range' 0 maxTextLength).map (trainOutput nets encoderInputs decoderInputs) :=
    trainingSteps_eq_map nets encoderInputs decoderInputs maxTextLength 0
  constructor
  · rw [key]
    simp [List.length_range']
  · intro t ht
    rw [key, ← List.range_eq_range']
    simp [List.getElem?_range, ht]

/-- Concrete sub-networks over `Nat` used to instantiate the unrolling. -/
def natNets : ConvEncoderDecoderNets Nat Nat Nat Nat Nat Nat Nat where
  encoder := fun x => (x + 1, x + 2, x + 3)
  attention := fun a h c => a + 2 * h + 3 * c
  decoder := fun z h c => (z.1 + 5 * z.2, h + 1, c + 2)

/-- C6 witness: the unrolling theorem applied to concrete networks with
`maxTextLength = 2` at step `t = 1`. -/
theorem create_training_model_outputs_witness :
    (create_training_model natNets 0 (fun t => t + 4) 2).length = 2 ∧
    (create_training_model natNets 0 (fun t => t + 4) 2)[1]? =
      some (trainOutput natNets 0 (fun t => t + 4) 1) :=
  ⟨(create_training_model_outputs natNets 0 (fun t => t + 4) 2).1,
   (create_training_model_outputs natNets 0 (fun t => t + 4) 2).2 1 (by decide)⟩

/-! ### Configuration, persistence and the adapter -/

/-- Opaque preprocessing options: a flat key-value record persisted and
restored verbatim. -/
abbrev PrepOptions := List (String × String)

/-- The configuration state of a `ConvolutionalEncoderDecoderWithAttention`
instance: the seven integer hyperparameters stored by `__init__`, plus
`_num_output_tokens` and `_preprocessing_options` (the keras sub-networks
are opaque weight artefacts, out of scope here). -/
structure ConvolutionalEncoderDecoderWithAttention where
  height : Int
  units : Int
  output_size : Int
  max_image_width : Int
  max_text_length : Int
  sos : Int
  eos : Int
  num_output_tokens : Int
  preprocessing_options : PrepOptions
  deriving Repr, DecidableEq

/-- `ConvolutionalEncoderDecoderWithAttention.__init__`: stores the seven
arguments, sets `_num_output_tokens = output_size` and
`_preprocessing_options = {}`. -/
def ConvolutionalEncoderDecoderWithAttention.init
    (height units output_size max_image_width max_text_length sos eos : Int) :
    ConvolutionalEncoderDecoderWithAttention :=
  { height := height, units := units, output_size := output_size,
    max_image_width := max_image_width, max_text_length := max_text_length,
    sos := sos, eos := eos,
    num_output_tokens := output_size,
    preprocessing_options := [] }

/-- The `model_params` dictionary assembled by `save`. -/
structure ParamsRecord where
  height : Int
  units : Int
  output_size : Int
  max_image_width : Int
  max_text_length : Int
  sos : Int
  eos : Int
  deriving Repr, DecidableEq

/-- The persisted JSON configuration record
`{ "name": ..., "params": ..., "preprocessing": ... }`. -/
structure SavedModelRecord where
  name : String
  params : ParamsRecord
  preprocessing : PrepOptions
  deriving Repr, DecidableEq

/-- Modelled from the spec: `save_model_params` is defined on the `HTRModel`
base class, which is not under `src/`; per the spec's external-interface
section it writes the JSON configuration record with the given name, params
and preprocessing options verbatim. -/
def save_model_params (name : String) (params : ParamsRecord)
    (preprocessing : PrepOptions) : SavedModelRecord :=
  { name := name, params := params, preprocessing := preprocessing }

/-- `ConvolutionalEncoderDecoderWithAttention.save`: assembles `model_params`
from the instance fields and persists it together with the supplied
preprocessing record (directory creation and the three weight files are
out-of-scope plumbing). -/
def ConvolutionalEncoderDecoderWithAttention.save
    (m : ConvolutionalEncoderDecoderWithAttention)
    (preprocessing_params : PrepOptions) : SavedModelRecord :=
  save_model_params "ConvolutionalEncoderDecoderWithAttention"
    { height := m.height, units := m.units, output_size := m.output_size,
      max_image_width := m.max_image_width, max_text_length := m.max_text_length,
      sos := m.sos, eos := m.eos }
    preprocessing_params

/-- `ConvolutionalEncoderDecoderWithAttention.load`: reads the persisted
record, rebuilds the instance via `cls(**params)` and overwrites
`_preprocessing_options` with the persisted preprocessing record. -/
def ConvolutionalEncoderDecoderWithAttention.load (d : SavedModelRecord) :
    ConvolutionalEncoderDecoderWithAttention :=
  let p := d.params
  let inst := ConvolutionalEncoderDecoderWithAttention.init
    p.height p.units p.output_size p.max_image_width p.max_text_length p.sos p.eos
  { inst with preprocessing_options := d.preprocessing }

/-- C7: `save(path, prefs)` followed by `load(path)` yields an instance whose
seven configuration fields equal those of the original and whose
preprocessing options equal the persisted preprocessing record. -/
theorem save_load_round_trip (m : ConvolutionalEncoderDecoderWithAttention)
    (prefs : PrepOptions) :
    (ConvolutionalEncoderDecoderWithAttention.load (m.save prefs)).height = m.height ∧
    (ConvolutionalEncoderDecoderWithAttention.load (m.save prefs)).units = m.units ∧
    (ConvolutionalEncoderDecoderWithAttention.load (m.save prefs)).output_size = m.output_size ∧
    (ConvolutionalEncoderDecoderWithAttention.load (m.save prefs)).max_image_width = m.max_image_width ∧
    (ConvolutionalEncoderDecoderWithAttention.load (m.save prefs)).max_text_length = m.max_text_length ∧
    (ConvolutionalEncoderDecoderWithAttention.load (m.save prefs)).sos = m.sos ∧
    (ConvolutionalEncoderDecoderWithAttention.load (m.save prefs)).eos = m.eos ∧
    (ConvolutionalEncoderDecoderWithAttention.load (m.save prefs)).preprocessing_options = prefs :=
  ⟨rfl, rfl, rfl, rfl, rfl, rfl, rfl, rfl⟩

/-- Modelled from the spec: `ConvolutionalEncoderDecoderAdapter.__init__`
lives under `adapters/`, not under `src/`; per the spec's external-interface
section the adapter is constructed with (and stores) `sos`, `eos`,
`num_output_tokens`, `max_image_width` and its text-length parameter. -/
structure ConvolutionalEncoderDecoderAdapter where
  sos : Int
  eos : Int
  num_output_tokens : Int
  max_image_width : Int
  max_text_length : Int
  deriving Repr, DecidableEq

/-- `ConvolutionalEncoderDecoderWithAttention.get_adapter`: constructs the
adapter from the model's own fields, passing `max_text_length - 1`. -/
def ConvolutionalEncoderDecoderWithAttention.get_adapter
    (m : ConvolutionalEncoderDecoderWithAttention) :
    ConvolutionalEncoderDecoderAdapter :=
  { sos := m.sos, eos := m.eos, num_output_tokens := m.num_output_tokens,
    max_image_width := m.max_image_width,
    max_text_length := m.max_text_length - 1 }

/-- C8: for any model built by `__init__`, `get_adapter` passes the model's
own `sos`, `eos`, `output_size` (as `num_output_tokens`) and
`max_image_width`, and a text-length parameter equal to
`max_text_length - 1`. -/
theorem get_adapter_fields
    (height units output_size max_image_width max_text_length sos eos : Int) :
    (ConvolutionalEncoderDecoderWithAttention.init height units output_size
        max_image_width max_text_length sos eos).get_adapter =
      { sos := sos, eos := eos, num_output_tokens := output_size,
        max_image_width := max_image_width,
        max_text_length := max_text_length - 1 } :=
  rfl

/-! ### The configuration computed by `fit` -/

/-- A training or validation generator, reduced to the interface `fit`
reads: `.size` and `.batch_size`. -/
structure Generator where
  size : Nat
  batch_size : Nat
  deriving Repr, DecidableEq

/-- The optimizer `fit` compiles with: either the freshly constructed
default `Adam(lr=0.001)`, or the object supplied under the `optimizer`
key of `compilation_params`. -/
inductive ChosenOptimizer (Opt : Type) where
  | adamDefault (lr : ℚ)
  | supplied (o : Opt)

/-- The `compilation_params` dictionary: the two keys `fit` looks up. -/
structure CompilationParams (Opt : Type) where
  optimizer : Option Opt
  metrics : Option (List String)

/-- The configuration `fit` hands to `compile` and to the framework's
training procedure. -/
structure FitConfig (Opt : Type) where
  steps_per_epoch : Nat
  validation_steps : Nat
  optimizer : ChosenOptimizer Opt
  loss : String
  metrics : List String

/-- `ConvolutionalEncoderDecoderWithAttention.fit`, as the configuration it
computes: `math.ceil(size / batch_size)` step counts for both generators
(the rational ceiling, mirroring Python's true division), the optimizer
defaulting to `Adam(lr=0.001)` when `compilation_params` has no
`optimizer` key, the loss fixed to categorical cross-entropy, and the
metrics defaulting to `[]`. -/
def fit {Opt : Type} (train_generator val_generator : Generator)
    (compilation_params : Option (CompilationParams Opt)) : FitConfig Opt :=
  let cp := compilation_params.getD { optimizer := none, metrics := none }
  { steps_per_epoch := ⌈(train_generator.size : ℚ) / train_generator.batch_size⌉₊,
    validation_steps := ⌈(val_generator.size : ℚ) / val_generator.batch_size⌉₊,
    optimizer := match cp.optimizer with
      | some o => ChosenOptimizer.supplied o
      | none => ChosenOptimizer.adamDefault (1 / 1000),
    loss := "categorical_crossentropy",
    metrics := cp.metrics.getD [] }

/-- `math.ceil(a / b)` on non-negative integers is `(a + b - 1) / b` in
integer arithmetic. -/
theorem nat_ceil_div_eq (a b : Nat) (hb : 0 < b) :
    ⌈(a : ℚ) / b⌉₊ = (a + b - 1) / b := by
  have hbq : (0 : ℚ) < b := by exact_mod_cast hb
  apply Nat.le_antisymm
  · rw [Nat.le_div_iff_mul_le hb]
    have h1 : (⌈(a : ℚ) / b⌉₊ : ℚ) < (a : ℚ) / b + 1 :=
      Nat.ceil_lt_add_one (by positivity)
    have h2 : (⌈(a : ℚ) / b⌉₊ : ℚ) * b < a + b := by
      calc (⌈(a : ℚ) / b⌉₊ : ℚ) * b < ((a : ℚ) / b + 1) * b :=
            mul_lt_mul_of_pos_right h1 hbq
        _ = a + b := by field_simp
    have h3 : ⌈(a : ℚ) / b⌉₊ * b < a + b := by exact_mod_cast h2
    omega
  · rw [Nat.div_le_iff_le_mul_add_pred hb]
    have h1 : (a : ℚ) / b ≤ (⌈(a : ℚ) / b⌉₊ : ℚ) := Nat.le_ceil _
    have h2 : (a : ℚ) ≤ (⌈(a : ℚ) / b⌉₊ : ℚ) * b := by
      rw [div_le_iff₀ hbq] at h1
      exact h1
    have h3 : a ≤ ⌈(a : ℚ) / b⌉₊ * b := by exact_mod_cast h2
    have h4 : a ≤ b * ⌈(a : ℚ) / b⌉₊ := by rw [Nat.mul_comm] at h3; exact h3
    omega

/-- C9: `fit` runs the training procedure with
`steps_per_epoch = ceil(train.size / train.batch_size)` and
`validation_steps = ceil(val.size / val.batch_size)`, compiles with loss
fixed to categorical cross-entropy, and uses `Adam(lr=0.001)` exactly when
`compilation_params` supplies no `optimizer` entry. -/
theorem fit_configuration {Opt : Type} (train_generator val_generator : Generator)
    (compilation_params : Option (CompilationParams Opt))
    (htrain : 0 < train_generator.batch_size)
    (hval : 0 < val_generator.batch_size) :
    (fit train_generator val_generator compilation_params).steps_per_epoch =
      (train_generator.size + train_generator.batch_size - 1) / train_generator.batch_size ∧
    (fit train_generator val_generator compilation_params).validation_steps =
      (val_generator.size + val_generator.batch_size - 1) / val_generator.batch_size ∧
    (fit train_generator val_generator compilation_params).loss = "categorical_crossentropy" ∧
    ((fit train_generator val_generator compilation_params).optimizer =
        ChosenOptimizer.adamDefault (1 / 1000) ↔
      (compilation_params.getD { optimizer := none, metrics := none }).optimizer = none) := by
  refine ⟨nat_ceil_div_eq _ _ htrain, nat_ceil_div_eq _ _ hval, rfl, ?_⟩
  constructor
  · intro h
    rcases ho : (compilation_params.getD { optimizer := none, metrics := none }).optimizer with
      _ | o
    · rfl
    · simp [fit, ho] at h
  · intro h
    simp [fit, h]

/-- C9 witness: the fit configuration at concrete generators with no
compilation parameters. -/
theorem fit_configuration_witness :
    (fit ⟨10, 3⟩ ⟨5, 2⟩ (none : Option (CompilationParams String))).steps_per_epoch =
      (10 + 3 - 1) / 3 ∧
    (fit ⟨10, 3⟩ ⟨5, 2⟩ (none : Option (CompilationParams String))).validation_steps =
      (5 + 2 - 1) / 2 ∧
    (fit ⟨10, 3⟩ ⟨5, 2⟩ (none : Option (CompilationParams String))).loss =
      "categorical_crossentropy" ∧
    ((fit ⟨10, 3⟩ ⟨5, 2⟩ (none : Option (CompilationParams String))).optimizer =
        ChosenOptimizer.adamDefault (1 / 1000) ↔
      ((none : Option (CompilationParams String)).getD
          { optimizer := none, metrics := none }).optimizer = none) :=
  fit_configuration ⟨10, 3⟩ ⟨5, 2⟩ none (by decide) (by decide)

/-! ### The range of emitted codes -/

/-- Tail of `np.argmax`: scan the remaining entries, keeping the index of
the first maximal entry seen so far. -/
def argmaxAux : List ℚ → Nat → ℚ → Nat → Nat
  | [], _, _, best => best
  | x :: xs, i, bestVal, best =>
    if bestVal < x then argmaxAux xs (i + 1) x i
    else argmaxAux xs (i + 1) bestVal best

/-- `np.argmax` on a probability vector: the index of the first maximal
entry (0 on the empty vector, where numpy raises instead). -/
def argmax : List ℚ → Nat
  | [] => 0
  | x :: xs => argmaxAux xs 1 x 0

theorem argmaxAux_lt : ∀ (xs : List ℚ) (i : Nat) (bestVal : ℚ) (best : Nat),
    best < i → argmaxAux xs i bestVal best < i + xs.length := by
  intro xs
  induction xs with
  | nil =>
    intro i bestVal best h
    simpa [argmaxAux] using h
  | cons x rest ih =>
    intro i bestVal best h
    simp only [argmaxAux, List.length_cons]
    by_cases hlt : bestVal < x
    · rw [if_pos hlt]
      have := ih (i + 1) x i (Nat.lt_succ_self i)
      omega
    · rw [if_neg hlt]
      have := ih (i + 1) bestVal best (Nat.lt_succ_of_lt h)
      omega

/-- The argmax of a nonempty vector is a valid index into it. -/
theorem argmax_lt_length (l : List ℚ) (h : l ≠ []) : argmax l < l.length := by
  match l with
  | [] => exact absurd rfl h
  | x :: xs =>
    have := argmaxAux_lt xs 1 x 0 Nat.one_pos
    simp only [argmax, List.length_cons]
    omega

/-- Every label the loop returns was one of the consumed argmax codes. -/
theorem predictLoop_mem (numOutputTokens sos eos : Nat) :
    ∀ (codes : List Nat) (st st' : LoopState),
      predictLoop numOutputTokens sos eos codes st = some st' →
      ∀ x ∈ st'.labels, x ∈ st.labels ∨ x ∈ codes := by
  intro codes
  induction codes with
  | nil => intro st st' h; simp [predictLoop] at h
  | cons c rest ih =>
    intro st st' h x hx
    simp only [predictLoop] at h
    by_cases hhalt : c = eos ∨ st.labels.length > 100
    · rw [if_pos hhalt] at h
      cases h
      exact Or.inl hx
    · rw [if_neg hhalt] at h
      by_cases hsos : c = sos
      · rw [if_pos hsos] at h
        rcases ih { labels := st.labels, y_prev := oneHot numOutputTokens c } st' h x hx with
          hin | hin
        · exact Or.inl hin
        · exact Or.inr (List.mem_cons_of_mem c hin)
      · rw [if_neg hsos] at h
        rcases ih { labels := st.labels ++ [c], y_prev := oneHot numOutputTokens c } st' h x hx with
          hin | hin
        · rcases List.mem_append.mp hin with hin | hin
          · exact Or.inl hin
          · exact Or.inr ((List.mem_singleton.mp hin) ▸ List.mem_cons_self c rest)
        · exact Or.inr (List.mem_cons_of_mem c hin)

/-- `predict_single_output` as a function of the stream of decoder output
probability vectors, each collapsed by `np.argmax`. -/
def predict_from_distributions (numOutputTokens sos eos : Nat)
    (pmfs : List (List ℚ)) : Option (List Nat) :=
  predict_single_output numOutputTokens sos eos (pmfs.map argmax)

/-- C10: every element of the label sequence returned by
`predict_single_output` is an integer in `[0, output_size)`: each appended
code is the argmax index of a probability vector of length `output_size`
(`num_output_tokens`). -/
theorem predict_labels_in_range (numOutputTokens sos eos : Nat)
    (pmfs : List (List ℚ)) (labels : List Nat)
    (hlen : ∀ p ∈ pmfs, p.length = numOutputTokens)
    (hpos : 0 < numOutputTokens)
    (h : predict_from_distributions numOutputTokens sos eos pmfs = some labels) :
    ∀ x ∈ labels, x < numOutputTokens := by
  intro x hx
  simp only [predict_from_distributions, predict_single_output,
    Option.map_eq_some'] at h
  obtain ⟨st', hrun, hlab⟩ := h
  have hmem := predictLoop_mem numOutputTokens sos eos (pmfs.map argmax)
    (initState numOutputTokens sos) st' hrun x (by rw [hlab]; exact hx)
  rcases hmem with hin | hin
  · simp [initState] at hin
  · obtain ⟨p, hp, hpx⟩ := List.mem_map.mp hin
    have hplen := hlen p hp
    have hne : p ≠ [] := by
      intro hnil
      rw [hnil] at hplen
      simp at hplen
      omega
    have hbound := argmax_lt_length p hne
    rw [hplen] at hbound
    rw [← hpx]
    exact hbound

/-- C10 witness: the range bound applied to a concrete run over two
distribution vectors of width 3 (`argmax` codes `2` then `1 = eos`). -/
theorem predict_labels_in_range_witness : (2 : Nat) < 3 :=
  predict_labels_in_range 3 0 1 [[0, 1, 2], [0, 2, 1]] [2]
    (by decide) (by decide) (by decide) 2 (by decide)

end KerasHtr
